import Mathlib

set_option maxRecDepth 10000
set_option maxHeartbeats 1000000

/-!
Formal model of the batch file renamer in src/file_renamer.py.

Modelling choices, in order of appearance:
- the Python regular-expression engine is abstracted by a match oracle
  (RegexMatcher); the global scan of re.sub is modelled concretely;
- decimal formatting (str on an int) and str.zfill are modelled concretely;
- a filesystem path is its list of components; the set of paths existing
  on disk is an explicit list threaded through the rename loop;
- get_file_date depends on stat metadata and the wall clock, so it is an
  abstract parameter, written gfd, of type FPath to String to String
  (the path and the date_type choice give the formatted YYYYMMDD string);
- printing and the progress bar are not modelled, except for the mode
  banner and the total count that main derives from the returned plan.
-/

/-- Model of a compiled regular expression: given the character list at the
current scan position, return some k when the pattern matches a segment of
length k starting there (the leftmost-match attempt of the engine at this
position), and none when it does not match here. -/
def RegexMatcher : Type := List Char → Option Nat

/-- Matcher of a regular expression that is a literal pattern without
metacharacters: it matches exactly the occurrences of the literal. -/
def literalMatcher (pat : List Char) : RegexMatcher := fun cs =>
  if pat.isPrefixOf cs then some pat.length else none

/-- Model of the scan of Python re.sub with count 0 (global substitution):
at each position, try a match; a non-empty match emits the replacement and
the scan resumes after the match; an empty match emits the replacement and
the scan advances one character; otherwise the character is copied. The
fuel argument bounds the scan; length + 1 positions always suffice.
Backreference expansion inside the replacement is not modelled (no claim
involves it). -/
def pyReSubGo (m : RegexMatcher) (repl : List Char) : Nat → List Char → List Char
  | 0, cs => cs
  | fuel + 1, cs =>
    match m cs with
    | some (k + 1) => repl ++ pyReSubGo m repl fuel (cs.drop (k + 1))
    | some 0 =>
      match cs with
      | [] => repl
      | c :: rest => repl ++ c :: pyReSubGo m repl fuel rest
    | none =>
      match cs with
      | [] => []
      | c :: rest => c :: pyReSubGo m repl fuel rest

/-- Model of Python re.sub(pattern, repl, s) with the default count 0. -/
def pyReSubStr (m : RegexMatcher) (repl : String) (s : String) : String :=
  String.mk (pyReSubGo m repl.data (s.data.length + 1) s.data)

/-- Decimal digits of n accumulated in front of acc (structural fuel; the
initial fuel n + 1 always suffices). -/
def natReprGo (fuel : Nat) (n : Nat) (acc : List Char) : List Char :=
  match fuel with
  | 0 => acc
  | f + 1 =>
    if n < 10 then Nat.digitChar n :: acc
    else natReprGo f (n / 10) (Nat.digitChar (n % 10) :: acc)

/-- Decimal representation of a natural number. -/
def natRepr (n : Nat) : String := String.mk (natReprGo (n + 1) n [])

/-- Model of Python str on an int: decimal digits, with a leading minus
sign for negative values. -/
def pyStrInt (n : Int) : String :=
  if n < 0 then "-" ++ natRepr n.natAbs else natRepr n.natAbs

/-- Model of Python str.zfill: left-fill the string with zero characters up
to width; a leading sign character stays in front of the inserted zeros; a
string already at least width long is returned unchanged. -/
def pyZfill (s : String) (width : Int) : String :=
  if width ≤ (s.length : Int) then s
  else
    let pad := List.replicate (width - (s.length : Int)).toNat '0'
    match s.data with
    | [] => String.mk pad
    | c :: rest =>
      if c = '-' ∨ c = '+' then String.mk (c :: (pad ++ rest))
      else String.mk (pad ++ (c :: rest))

/-- Index of the last occurrence of c in cs, when there is one. -/
def rfindChar (c : Char) : List Char → Option Nat
  | [] => none
  | x :: xs =>
    match rfindChar c xs with
    | some i => some (i + 1)
    | none => if x = c then some 0 else none

/-- Model of PurePath.suffix on a file name: the part of the name from its
final dot on, when that dot is neither the first character nor the last
character; otherwise the empty string. -/
def pySuffix (name : String) : String :=
  match rfindChar '.' name.data with
  | some i => if 0 < i ∧ i < name.length - 1 then String.mk (name.data.drop i) else ""
  | none => ""

/-- Model of PurePath.stem on a file name: the name with pySuffix removed. -/
def pyStem (name : String) : String :=
  match rfindChar '.' name.data with
  | some i => if 0 < i ∧ i < name.length - 1 then String.mk (name.data.take i) else name
  | none => name

/-- A filesystem path, as its list of components. -/
abbrev FPath := List String

/-- Model of Path.name: the final component of the path. -/
def pathName (p : FPath) : String := p.getLastD ""

/-- Model of Path.parent, as a component list: all but the final component. -/
def parentDir (p : FPath) : FPath := p.dropLast

/-- The full path as one string, components joined by the separator. -/
def fullPath (p : FPath) : String := String.intercalate "/" p

/-- Translation of generate_new_name (src/file_renamer.py lines 56 to 100).
The parameter gfd abstracts get_file_date; search is the matcher of the
compiled pattern; number is None or the counter value; truthiness of the
Python optional string arguments date_type, search and replace is modelled
by Option (argparse restricts them to non-empty choices or omission). -/
def generate_new_name (gfd : FPath → String → String) (file_path : FPath)
    (prefixStr : String) (suffixStr : String)
    (search : Option RegexMatcher) (replaceStr : Option String)
    (number : Option Int) (number_mode : String) (number_padding : Int)
    (date_type : Option String) (date_position : String) : String :=
  let stem := pyStem (pathName file_path)
  let ext := pySuffix (pathName file_path)
  let stem :=
    match search, replaceStr with
    | some m, some r => pyReSubStr m r stem
    | _, _ => stem
  let stem := if prefixStr ≠ "" then prefixStr ++ stem else stem
  let stem := if suffixStr ≠ "" then stem ++ suffixStr else stem
  let stem :=
    match number with
    | some n =>
      let num_str := pyZfill (pyStrInt n) number_padding
      if number_mode = "sequential" then num_str else stem ++ "_" ++ num_str
    | none => stem
  let stem :=
    match date_type with
    | some dt =>
      let date_str := gfd file_path dt
      if date_position = "prefix" then date_str ++ "_" ++ stem else stem ++ "_" ++ date_str
    | none => stem
  stem ++ ext

/-- One entry of the rglob or glob result: the path, and whether the Python
test is_file() holds of it (true exactly for regular files and symlinks
resolving to regular files). -/
structure FSEntry where
  path : FPath
  is_file : Bool
deriving DecidableEq

/-- Generic strict lexicographic comparison of lists from a strict
comparison of elements: the Python comparison of two lists. -/
def lexLtBy (lt : α → α → Bool) [DecidableEq α] : List α → List α → Bool
  | [], [] => false
  | [], _ :: _ => true
  | _ :: _, [] => false
  | a :: as, b :: bs => if lt a b then true else if a = b then lexLtBy lt as bs else false

/-- Strict comparison of characters by code point. -/
def charLtB (a b : Char) : Bool := a.toNat < b.toNat

/-- Model of the Python comparison of two strings: lexicographic by code
point. -/
def strLtB (s t : String) : Bool := lexLtBy charLtB s.data t.data

/-- Model of the Python comparison of two Path objects: list comparison of
the component lists, components compared as strings. -/
def partsLt (p q : List String) : Bool := lexLtBy strLtB p q

/-- The non-strict order on paths induced by partsLt; sorted ascending
output of the Python sorted builtin is sorted for this relation. -/
def pathLe (p q : FPath) : Prop := partsLt q p = false

instance : DecidableRel pathLe := fun p q => instDecidableEqBool (partsLt q p) false

/-- Model of the Python sorted builtin on paths: the unique stable
ascending reordering, here computed by insertion sort (every stable sort
for one total preorder produces the same list). -/
def pySorted (l : List FPath) : List FPath := List.insertionSort pathLe l

/-- Translation of collect_files (lines 103 to 115): the rglob or glob
output is the abstract input; keep the entries satisfying is_file() and
sort them. -/
def collect_files (globResult : List FSEntry) : List FPath :=
  pySorted ((globResult.filter (fun e => e.is_file)).map (fun e => e.path))

/-- Configuration of one run of rename_files, one field per keyword
parameter of the Python function (lines 118 to 132). -/
structure RenameOpts where
  prefixStr : String
  suffixStr : String
  search : Option RegexMatcher
  replaceStr : Option String
  numbering : Bool
  number_mode : String
  number_start : Int
  number_padding : Int
  date_type : Option String
  date_position : String

/-- State threaded through the loop of rename_files: the paths existing on
disk, the accumulated plan, the numbering counter, and the warnings. -/
structure RenameState where
  fs : List FPath
  renames : List (FPath × FPath)
  counter : Int
  warnings : List String
deriving DecidableEq

/-- The number argument passed to generate_new_name (line 147). -/
def optNumber (opts : RenameOpts) (counter : Int) : Option Int :=
  if opts.numbering then some counter else none

/-- The candidate name computed for one file (lines 149 to 160). -/
def computedName (gfd : FPath → String → String) (opts : RenameOpts)
    (counter : Int) (f : FPath) : String :=
  generate_new_name gfd f opts.prefixStr opts.suffixStr opts.search opts.replaceStr
    (optNumber opts counter) opts.number_mode opts.number_padding
    opts.date_type opts.date_position

/-- The candidate path of line 162 with the new name taken as one path
component. The real line builds file_path.parent / new_name through the
PurePath division operator, which parses its string argument (joinPath
below models that parse); the two agree exactly when the generated name is
a plain relative component (lemma joinPath_plain), the case of every
separator-free configuration. The claims about the directory of plan
entries are settled on the parsing model (computedPathDiv and
rename_files_div); this simplified form underlies only conclusions that do
not depend on how the name string parses. -/
def computedPath (gfd : FPath → String → String) (opts : RenameOpts)
    (counter : Int) (f : FPath) : FPath :=
  parentDir f ++ [computedName gfd opts counter f]

/-- The warning recorded on a destination conflict (line 171). -/
def warnMsg (f : FPath) (new_name : String) : String :=
  "Skipping " ++ pathName f ++ " - target exists: " ++ new_name

/-- The trailing counter increment of the loop body (lines 175 and 176). -/
def bumpCounter (opts : RenameOpts) (s : RenameState) : RenameState :=
  if opts.numbering then { s with counter := s.counter + 1 } else s

/-- One iteration of the loop of rename_files (lines 144 to 176). Note the
Python continue statement on a conflict jumps past the trailing counter
increment, so that branch does not advance the counter. As in computedPath,
new_path takes the generated name as one component; renameStepDiv below is
the same iteration with the faithful parsing join of line 162, and the
directory claims are settled on it. -/
def renameStep (gfd : FPath → String → String) (opts : RenameOpts) (execute : Bool)
    (s : RenameState) (file_path : FPath) : RenameState :=
  let new_name := computedName gfd opts s.counter file_path
  let new_path := parentDir file_path ++ [new_name]
  if new_path ≠ file_path then
    let s1 := { s with renames := s.renames ++ [(file_path, new_path)] }
    if execute then
      if new_path ∈ s1.fs ∧ new_path ≠ file_path then
        { s1 with warnings := s1.warnings ++ [warnMsg file_path new_name] }
      else
        bumpCounter opts { s1 with fs := s1.fs.erase file_path ++ [new_path] }
    else bumpCounter opts s1
  else bumpCounter opts s

/-- The loop of rename_files over the collected files. -/
def renameLoop (gfd : FPath → String → String) (opts : RenameOpts) (execute : Bool) :
    RenameState → List FPath → RenameState
  | s, [] => s
  | s, f :: rest => renameLoop gfd opts execute (renameStep gfd opts execute s f) rest

/-- Translation of rename_files (lines 118 to 184): collect the files, then
run the loop from counter number_start with empty plan and warnings. The
parameter fs0 is the set of paths existing on disk when the run starts, and
globResult is the walk of the root for the configured pattern. -/
def rename_files (gfd : FPath → String → String) (opts : RenameOpts) (execute : Bool)
    (fs0 : List FPath) (globResult : List FSEntry) : RenameState :=
  renameLoop gfd opts execute
    { fs := fs0, renames := [], counter := opts.number_start, warnings := [] }
    (collect_files globResult)

/-- The mode banner printed by main (line 339). -/
def mainMode (execute : Bool) : String :=
  if execute then "RENAMED" else "PREVIEW (use --execute to apply)"

/-- The total count printed by main (line 356): the length of the returned
plan. -/
def mainTotal (renames : List (FPath × FPath)) : Nat := renames.length

/-- Stage 1 of the transformation order stated by the spec: when search and
replace are both present, global regex substitution on the stem. -/
def specStageSub (search : Option RegexMatcher) (replaceStr : Option String)
    (stem : String) : String :=
  match search, replaceStr with
  | some m, some r => pyReSubStr m r stem
  | _, _ => stem

/-- Stage 2 of the spec order: prepend the configured prefix when it is
non-empty. -/
def specStagePrefix (prefixStr : String) (stem : String) : String :=
  if prefixStr ≠ "" then prefixStr ++ stem else stem

/-- Stage 3 of the spec order: append the configured suffix when it is
non-empty. -/
def specStageSuffix (suffixStr : String) (stem : String) : String :=
  if suffixStr ≠ "" then stem ++ suffixStr else stem

/-- Stage 4 of the spec order: when numbering, sequential mode replaces the
whole stem so far by the zero-padded counter, append mode appends an
underscore and the zero-padded counter. -/
def specStageNumber (number : Option Int) (number_mode : String)
    (number_padding : Int) (stem : String) : String :=
  match number with
  | some n =>
    if number_mode = "sequential" then pyZfill (pyStrInt n) number_padding
    else stem ++ "_" ++ pyZfill (pyStrInt n) number_padding
  | none => stem

/-- Stage 5 of the spec order: when a date is configured, prepend the date
string and an underscore, or append an underscore and the date string, per
the configured position. -/
def specStageDate (gfd : FPath → String → String) (f : FPath)
    (date_type : Option String) (date_position : String) (stem : String) : String :=
  match date_type with
  | some dt =>
    if date_position = "prefix" then gfd f dt ++ "_" ++ stem
    else stem ++ "_" ++ gfd f dt
  | none => stem

/-- The five-stage pipeline on the stem, in the fixed order the spec
states: substitution, then prefix, then suffix, then numbering, then
date. -/
def specPipeline (gfd : FPath → String → String) (f : FPath)
    (prefixStr suffixStr : String) (search : Option RegexMatcher)
    (replaceStr : Option String) (number : Option Int) (number_mode : String)
    (number_padding : Int) (date_type : Option String) (date_position : String)
    (stem : String) : String :=
  specStageDate gfd f date_type date_position
    (specStageNumber number number_mode number_padding
      (specStageSuffix suffixStr
        (specStagePrefix prefixStr
          (specStageSub search replaceStr stem))))

/-- Plain left zero-padding to a width, as the spec words it: the decimal
representation left-padded with zero characters to the configured width,
kept in full when it is already the width or longer. -/
def specLeftPad (s : String) (width : Int) : String :=
  if width ≤ (s.length : Int) then s
  else String.mk (List.replicate (width - (s.length : Int)).toNat '0' ++ s.data)

/-- Whether a list of paths is sorted in lexicographic order by full path
string, as the spec words the collect_files ordering contract. -/
def sortedByFullPath : List FPath → Bool
  | [] => true
  | [_] => true
  | p :: q :: rest =>
    if strLtB (fullPath q) (fullPath p) then false else sortedByFullPath (q :: rest)

/-- A concrete date oracle for witnesses: every file maps to one fixed
date string. -/
def gfd0 : FPath → String → String := fun _ _ => "20240101"

/-- Options with numbering in append mode from 1 with padding 3 and
nothing else, as produced by the command line flag number alone. -/
def opts1 : RenameOpts :=
  { prefixStr := "", suffixStr := "", search := none, replaceStr := none,
    numbering := true, number_mode := "append", number_start := 1,
    number_padding := 3, date_type := none, date_position := "prefix" }

/-- Options with every renaming feature off. -/
def opts0 : RenameOpts :=
  { prefixStr := "", suffixStr := "", search := none, replaceStr := none,
    numbering := false, number_mode := "append", number_start := 1,
    number_padding := 3, date_type := none, date_position := "prefix" }

/-- Matcher of a regular expression matching exactly the two stems x1 and
x2 whole (for example the pattern x[12] anchored by the stem content). -/
def mXY : RegexMatcher := fun cs =>
  if cs = "x1".data ∨ cs = "x2".data then some 2 else none

/-- Options mapping the stems x1 and x2 both to y by search and replace. -/
def optsXY : RenameOpts :=
  { prefixStr := "", suffixStr := "", search := some mXY, replaceStr := some "y",
    numbering := false, number_mode := "append", number_start := 1,
    number_padding := 3, date_type := none, date_position := "prefix" }

/-- Disk paths for the one-file conflict scenario: the collected file a.txt
and an unrelated existing file a_001.txt occupying the destination. -/
def fsA : List FPath := [["a.txt"], ["a_001.txt"]]

/-- Glob result collecting only a.txt. -/
def grA : List FSEntry := [{ path := ["a.txt"], is_file := true }]

/-- Disk paths for the two-file conflict scenario. -/
def fsAB : List FPath := [["a.txt"], ["b.txt"], ["a_001.txt"]]

/-- Glob result collecting a.txt and b.txt. -/
def grAB : List FSEntry :=
  [{ path := ["a.txt"], is_file := true }, { path := ["b.txt"], is_file := true }]

/-- Disk paths for the no-conflict two-file scenario. -/
def fsAB0 : List FPath := [["a.txt"], ["b.txt"]]

/-- Disk paths for the duplicate-destination scenario. -/
def fsXY : List FPath := [["x1.txt"], ["x2.txt"]]

/-- Glob result collecting x1.txt and x2.txt. -/
def grXY : List FSEntry :=
  [{ path := ["x1.txt"], is_file := true }, { path := ["x2.txt"], is_file := true }]

/-- Initial loop state for the duplicate-destination scenario. -/
def stXY : RenameState := { fs := fsXY, renames := [], counter := 1, warnings := [] }

/-- State of the duplicate-destination scenario after the first file was
processed in execute mode (x1.txt was renamed to y.txt). -/
def stXY1 : RenameState := renameStep gfd0 optsXY true stXY ["x1.txt"]

/-- Initial loop state for the one-file conflict scenario. -/
def stA : RenameState := { fs := fsA, renames := [], counter := 1, warnings := [] }

/-- Glob result whose sorted output is not in full-path-string order: the
component lists of a.txt and a/b. -/
def grDepth : List FSEntry :=
  [{ path := ["a.txt"], is_file := true }, { path := ["a", "b"], is_file := true }]

/-- Split a character list on the separator character; empty chunks from
leading, trailing or doubled separators are kept here and discarded by the
parse step, as pathlib does. -/
def splitSepGo : List Char → List Char → List (List Char)
  | [], acc => [acc.reverse]
  | c :: rest, acc =>
    if c = '/' then acc.reverse :: splitSepGo rest []
    else splitSepGo rest (c :: acc)

/-- Components of one string argument of a POSIX pure path, as pathlib
parses it: split on the separator, empty and single-dot components
discarded (double-dot components are kept, as pathlib keeps them). -/
def parseName (s : String) : List String :=
  ((splitSepGo s.data []).map String.mk).filter (fun c => decide (c ≠ "" ∧ c ≠ "."))

/-- Model of the PurePath division operator joining a path and one string
(line 162 is file_path.parent / new_name): the right operand is parsed into
components and appended; an operand beginning with the separator is
absolute and discards the left operand (the root anchor itself is not
representable in the component-list model of paths). -/
def joinPath (p : FPath) (s : String) : FPath :=
  if s.data.headD ' ' = '/' then parseName s else p ++ parseName s

/-- The candidate path of line 162 with the faithful parsing join. -/
def computedPathDiv (gfd : FPath → String → String) (opts : RenameOpts)
    (counter : Int) (f : FPath) : FPath :=
  joinPath (parentDir f) (computedName gfd opts counter f)

/-- One iteration of the loop of rename_files (lines 144 to 176), identical
to renameStep except that line 162 is modelled by the parsing join. -/
def renameStepDiv (gfd : FPath → String → String) (opts : RenameOpts) (execute : Bool)
    (s : RenameState) (file_path : FPath) : RenameState :=
  let new_name := computedName gfd opts s.counter file_path
  let new_path := joinPath (parentDir file_path) new_name
  if new_path ≠ file_path then
    let s1 := { s with renames := s.renames ++ [(file_path, new_path)] }
    if execute then
      if new_path ∈ s1.fs ∧ new_path ≠ file_path then
        { s1 with warnings := s1.warnings ++ [warnMsg file_path new_name] }
      else
        bumpCounter opts { s1 with fs := s1.fs.erase file_path ++ [new_path] }
    else bumpCounter opts s1
  else bumpCounter opts s

/-- The loop of rename_files over the collected files, on the parsing
model. -/
def renameLoopDiv (gfd : FPath → String → String) (opts : RenameOpts) (execute : Bool) :
    RenameState → List FPath → RenameState
  | s, [] => s
  | s, f :: rest => renameLoopDiv gfd opts execute (renameStepDiv gfd opts execute s f) rest

/-- Translation of rename_files (lines 118 to 184) on the parsing model of
line 162. -/
def rename_files_div (gfd : FPath → String → String) (opts : RenameOpts) (execute : Bool)
    (fs0 : List FPath) (globResult : List FSEntry) : RenameState :=
  renameLoopDiv gfd opts execute
    { fs := fs0, renames := [], counter := opts.number_start, warnings := [] }
    (collect_files globResult)

/-- A name string that is one plain relative path component: it contains no
separator, is non-empty and is not the single dot. Every well-formed
configuration (prefix, suffix, replacement and date strings free of the
separator) generates only such names. -/
def plainComponent (s : String) : Prop := '/' ∉ s.data ∧ s ≠ "" ∧ s ≠ "."

/-- Options whose suffix contains a path separator, reachable on the
command line as the option suffix with value slash b. -/
def optsSlash : RenameOpts := { opts0 with suffixStr := "/b" }

/-- Options adding only a plain prefix. -/
def optsPre : RenameOpts := { opts0 with prefixStr := "new_" }

/-- Disk paths for the separator-suffix scenario: one file a.txt inside the
directory d. -/
def fsD : List FPath := [["d", "a.txt"]]

/-- Glob result collecting d/a.txt. -/
def grD : List FSEntry := [{ path := ["d", "a.txt"], is_file := true }]

theorem stringDataEq {a b : String} (h : a.data = b.data) : a = b := by
  cases a; cases b; cases h; rfl

theorem stringDataAppend (a b : String) : (a ++ b).data = a.data ++ b.data := rfl

/-- The stem and the suffix of a name recompose to the name: the Python
stem and suffix properties partition the name. -/
theorem pyStem_append_pySuffix (n : String) : pyStem n ++ pySuffix n = n := by
  apply stringDataEq
  rw [stringDataAppend]
  unfold pyStem pySuffix
  cases h : rfindChar '.' n.data with
  | none => simp
  | some i =>
    by_cases hc : 0 < i ∧ i < n.length - 1
    · simp [hc, List.take_append_drop]
    · simp [hc]

/-- The imperative stem rewriting of generate_new_name is exactly the
five-stage pipeline of the spec, with the extension appended unchanged. -/
theorem generate_eq_pipeline (gfd : FPath → String → String) (file_path : FPath)
    (prefixStr suffixStr : String) (search : Option RegexMatcher)
    (replaceStr : Option String) (number : Option Int) (number_mode : String)
    (number_padding : Int) (date_type : Option String) (date_position : String) :
    generate_new_name gfd file_path prefixStr suffixStr search replaceStr
        number number_mode number_padding date_type date_position
      = specPipeline gfd file_path prefixStr suffixStr search replaceStr
          number number_mode number_padding date_type date_position
          (pyStem (pathName file_path))
        ++ pySuffix (pathName file_path) := rfl

/-- A pattern matching nowhere leaves the scanned text unchanged. -/
theorem pyReSubGo_none (m : RegexMatcher) (repl : List Char)
    (h : ∀ cs, m cs = none) : ∀ fuel cs, pyReSubGo m repl fuel cs = cs := by
  intro fuel
  induction fuel with
  | zero => intro cs; rfl
  | succ f ih =>
    intro cs
    cases cs with
    | nil => simp [pyReSubGo, h]
    | cons c rest => simp [pyReSubGo, h, ih]

/-- A search pattern matching nowhere in the stem gives an identity
substitution, the global-substitution analogue of no match found. -/
theorem pyReSubStr_none (m : RegexMatcher) (repl : String) (s : String)
    (h : ∀ cs, m cs = none) : pyReSubStr m repl s = s := by
  apply stringDataEq
  simp [pyReSubStr, pyReSubGo_none m repl.data h]

/-- The candidate path always lies in the directory of the original. -/
theorem parentDir_computedPath (gfd : FPath → String → String) (opts : RenameOpts)
    (counter : Int) (f : FPath) :
    parentDir (computedPath gfd opts counter f) = parentDir f := by
  simp [computedPath, parentDir, List.dropLast_concat]

/-- A non-empty path is its parent directory plus its name. -/
theorem parentDir_append_pathName {f : FPath} (h : f ≠ []) :
    parentDir f ++ [pathName f] = f := by
  unfold parentDir pathName
  rw [List.getLastD_eq_getLast?, List.getLast?_eq_getLast _ h]
  simpa using List.dropLast_append_getLast h

theorem splitSepGo_noSlash (cs : List Char) :
    ∀ acc : List Char, '/' ∉ cs → splitSepGo cs acc = [acc.reverse ++ cs] := by
  induction cs with
  | nil => intro acc h; simp [splitSepGo]
  | cons c rest ih =>
    intro acc h
    have hc : c ≠ '/' := fun e => h (by rw [e]; exact List.mem_cons_self '/' rest)
    have hr : '/' ∉ rest := fun e => h (List.mem_cons_of_mem c e)
    rw [splitSepGo, if_neg (fun e => hc e), ih (c :: acc) hr]
    simp

/-- A plain relative component parses to itself alone. -/
theorem parseName_plain (s : String) (h : plainComponent s) : parseName s = [s] := by
  obtain ⟨h1, h2, h3⟩ := h
  unfold parseName
  rw [splitSepGo_noSlash s.data [] h1]
  have hs : String.mk s.data = s := stringDataEq rfl
  simp [hs, h2, h3]

/-- Joining a path with a plain relative component appends exactly that
component: in this case the parsing join and the simplified one agree. -/
theorem joinPath_plain (p : FPath) (s : String) (h : plainComponent s) :
    joinPath p s = p ++ [s] := by
  obtain ⟨h1, h2, h3⟩ := h
  unfold joinPath
  rw [if_neg ?hd, parseName_plain s ⟨h1, h2, h3⟩]
  case hd =>
    cases hs : s.data with
    | nil => simp
    | cons c cs =>
      rw [hs] at h1
      simp only [List.headD_cons]
      intro e
      exact h1 (by rw [e]; exact List.mem_cons_self '/' cs)

theorem computedPathDiv_def (gfd : FPath → String → String) (opts : RenameOpts)
    (c : Int) (f : FPath) :
    joinPath (parentDir f) (computedName gfd opts c f) = computedPathDiv gfd opts c f := rfl

/-- Every plan entry a parsing-model step appends is the parsed computed
path of the processed file, appended only when it differs from the
original. -/
theorem renameStepDiv_renames_cases (gfd : FPath → String → String) (opts : RenameOpts)
    (ex : Bool) (s : RenameState) (f : FPath) (e : FPath × FPath)
    (he : e ∈ (renameStepDiv gfd opts ex s f).renames) :
    e ∈ s.renames ∨
      (e = (f, computedPathDiv gfd opts s.counter f)
        ∧ computedPathDiv gfd opts s.counter f ≠ f) := by
  simp only [renameStepDiv] at he
  simp only [computedPathDiv_def] at he
  split at he
  · rename_i hne
    split at he
    · split at he
      · simp at he
        rcases he with h | h
        · exact Or.inl h
        · exact Or.inr ⟨by simp [h], hne⟩
      · simp [bumpCounter] at he
        split at he <;> simp at he <;>
          first
          | (rcases he with h | h
             · exact Or.inl h
             · exact Or.inr ⟨by simp [h], hne⟩)
    · simp [bumpCounter] at he
      split at he <;> simp at he <;>
        first
        | (rcases he with h | h
           · exact Or.inl h
           · exact Or.inr ⟨by simp [h], hne⟩)
  · simp [bumpCounter] at he
    split at he <;> exact Or.inl he

/-- Any property of the appended entries that holds for the parsed
computed path of every processed file holds of every plan entry at the end
of the parsing-model loop. -/
theorem renameLoopDiv_renames_prop (gfd : FPath → String → String) (opts : RenameOpts)
    (ex : Bool) (Q : FPath × FPath → Prop) :
    ∀ (files : List FPath) (s : RenameState),
      (∀ (c : Int) (f : FPath), f ∈ files → computedPathDiv gfd opts c f ≠ f →
        Q (f, computedPathDiv gfd opts c f)) →
      (∀ e ∈ s.renames, Q e) →
      ∀ e ∈ (renameLoopDiv gfd opts ex s files).renames, Q e := by
  intro files
  induction files with
  | nil => intro s hQ hs e he; exact hs e he
  | cons f rest ih =>
    intro s hQ hs e he
    refine ih (renameStepDiv gfd opts ex s f)
      (fun c g hg => hQ c g (List.mem_cons_of_mem f hg)) ?_ e he
    intro x hx
    rcases renameStepDiv_renames_cases gfd opts ex s f x hx with h | ⟨hx2, hneq⟩
    · exact hs x h
    · subst hx2
      exact hQ s.counter f (List.mem_cons_self f rest) hneq

theorem lexLtBy_irrefl (lt : α → α → Bool) [DecidableEq α]
    (hirr : ∀ a, lt a a = false) : ∀ l, lexLtBy lt l l = false := by
  intro l
  induction l with
  | nil => rfl
  | cons a as ih => simp [lexLtBy, hirr a, ih]

theorem lexLtBy_trans (lt : α → α → Bool) [DecidableEq α]
    (htr : ∀ a b c, lt a b = true → lt b c = true → lt a c = true) :
    ∀ p q r, lexLtBy lt p q = true → lexLtBy lt q r = true → lexLtBy lt p r = true := by
  intro p
  induction p with
  | nil =>
    intro q r h1 h2
    cases q with
    | nil => simp [lexLtBy] at h1
    | cons b bs =>
      cases r with
      | nil => simp [lexLtBy] at h2
      | cons c cs => simp [lexLtBy]
  | cons a as ih =>
    intro q r h1 h2
    cases q with
    | nil => simp [lexLtBy] at h1
    | cons b bs =>
      cases r with
      | nil => simp [lexLtBy] at h2
      | cons c cs =>
        simp only [lexLtBy] at h1 h2 ⊢
        cases hab : lt a b with
        | true =>
          cases hbc : lt b c with
          | true => simp [htr a b c hab hbc]
          | false =>
            rw [hbc] at h2
            simp at h2
            obtain ⟨hbceq, h2x⟩ := h2
            subst hbceq
            simp [hab]
        | false =>
          rw [hab] at h1
          simp at h1
          obtain ⟨habeq, h1x⟩ := h1
          subst habeq
          cases hac : lt a c with
          | true => simp
          | false =>
            rw [hac] at h2
            simp at h2 ⊢
            obtain ⟨haceq, h2x⟩ := h2
            subst haceq
            exact ⟨rfl, ih bs cs h1x h2x⟩

theorem lexLtBy_total (lt : α → α → Bool) [DecidableEq α]
    (htot : ∀ a b, lt a b = true ∨ a = b ∨ lt b a = true) :
    ∀ p q, lexLtBy lt p q = true ∨ p = q ∨ lexLtBy lt q p = true := by
  intro p
  induction p with
  | nil =>
    intro q
    cases q with
    | nil => right; left; rfl
    | cons b bs => left; simp [lexLtBy]
  | cons a as ih =>
    intro q
    cases q with
    | nil => right; right; simp [lexLtBy]
    | cons b bs =>
      rcases htot a b with h | h | h
      · left; simp [lexLtBy, h]
      · subst h
        rcases ih bs with h2 | h2 | h2
        · left; simp [lexLtBy, h2]
        · subst h2; right; left; rfl
        · right; right; simp [lexLtBy, h2]
      · right; right; simp [lexLtBy, h]

theorem charToNatInj {a b : Char} (h : a.toNat = b.toNat) : a = b :=
  Char.eq_of_val_eq (UInt32.eq_of_toBitVec_eq (BitVec.eq_of_toNat_eq h))

theorem charLtB_irrefl (a : Char) : charLtB a a = false := by simp [charLtB]

theorem charLtB_trans (a b c : Char) (h1 : charLtB a b = true) (h2 : charLtB b c = true) :
    charLtB a c = true := by
  simp [charLtB] at h1 h2 ⊢
  omega

theorem charLtB_total (a b : Char) : charLtB a b = true ∨ a = b ∨ charLtB b a = true := by
  rcases Nat.lt_trichotomy a.toNat b.toNat with h | h | h
  · left; simp [charLtB, h]
  · right; left; exact charToNatInj h
  · right; right; simp [charLtB, h]

theorem strLtB_irrefl (s : String) : strLtB s s = false :=
  lexLtBy_irrefl charLtB charLtB_irrefl s.data

theorem strLtB_trans (s t u : String) (h1 : strLtB s t = true) (h2 : strLtB t u = true) :
    strLtB s u = true :=
  lexLtBy_trans charLtB charLtB_trans s.data t.data u.data h1 h2

theorem strLtB_total (s t : String) : strLtB s t = true ∨ s = t ∨ strLtB t s = true := by
  rcases lexLtBy_total charLtB charLtB_total s.data t.data with h | h | h
  · left; exact h
  · right; left; exact stringDataEq h
  · right; right; exact h

theorem partsLt_irrefl (p : List String) : partsLt p p = false :=
  lexLtBy_irrefl strLtB strLtB_irrefl p

theorem partsLt_trans (p q r : List String) (h1 : partsLt p q = true)
    (h2 : partsLt q r = true) : partsLt p r = true :=
  lexLtBy_trans strLtB strLtB_trans p q r h1 h2

theorem partsLt_total (p q : List String) :
    partsLt p q = true ∨ p = q ∨ partsLt q p = true :=
  lexLtBy_total strLtB strLtB_total p q

theorem pathLe_total (p q : FPath) : pathLe p q ∨ pathLe q p := by
  unfold pathLe
  cases hqp : partsLt q p with
  | false => left; rfl
  | true =>
    right
    cases hpq : partsLt p q with
    | false => rfl
    | true =>
      have := partsLt_trans p q p hpq hqp
      rw [partsLt_irrefl] at this
      exact absurd this (by simp)

theorem pathLe_trans (p q r : FPath) (h1 : pathLe p q) (h2 : pathLe q r) : pathLe p r := by
  unfold pathLe at h1 h2 ⊢
  cases hrp : partsLt r p with
  | false => rfl
  | true =>
    rcases partsLt_total p q with h | h | h
    · have := partsLt_trans r p q hrp h
      rw [h2] at this
      exact absurd this (by simp)
    · subst h
      rw [h2] at hrp
      exact absurd hrp (by simp)
    · rw [h1] at h
      exact absurd h (by simp)

theorem computedPath_def (gfd : FPath → String → String) (opts : RenameOpts)
    (c : Int) (f : FPath) :
    parentDir f ++ [computedName gfd opts c f] = computedPath gfd opts c f := rfl

/-- One step advances counter plus warnings count by exactly one when
numbering is enabled: the conflict branch trades the increment for a
warning, every other branch increments. -/
theorem renameStep_counter_warn (gfd : FPath → String → String) (opts : RenameOpts)
    (ex : Bool) (s : RenameState) (f : FPath) (hn : opts.numbering = true) :
    (renameStep gfd opts ex s f).counter + ((renameStep gfd opts ex s f).warnings.length : Int)
      = s.counter + (s.warnings.length : Int) + 1 := by
  simp only [renameStep]
  split
  · split
    · split
      · simp
        omega
      · simp [bumpCounter, hn]; omega
    · simp [bumpCounter, hn]; omega
  · simp [bumpCounter, hn]; omega

theorem renameLoop_counter_warn (gfd : FPath → String → String) (opts : RenameOpts)
    (ex : Bool) (hn : opts.numbering = true) :
    ∀ (files : List FPath) (s : RenameState),
      (renameLoop gfd opts ex s files).counter
          + ((renameLoop gfd opts ex s files).warnings.length : Int)
        = s.counter + (s.warnings.length : Int) + files.length := by
  intro files
  induction files with
  | nil => intro s; simp [renameLoop]
  | cons f rest ih =>
    intro s
    simp only [renameLoop]
    rw [ih]
    have h := renameStep_counter_warn gfd opts ex s f hn
    simp only [List.length_cons]
    push_cast
    omega

theorem renameStep_fs_dry (gfd : FPath → String → String) (opts : RenameOpts)
    (s : RenameState) (f : FPath) : (renameStep gfd opts false s f).fs = s.fs := by
  simp only [renameStep]
  split <;> simp [bumpCounter] <;> split <;> simp

theorem renameLoop_fs_dry (gfd : FPath → String → String) (opts : RenameOpts) :
    ∀ (files : List FPath) (s : RenameState),
      (renameLoop gfd opts false s files).fs = s.fs := by
  intro files
  induction files with
  | nil => intro s; rfl
  | cons f rest ih => intro s; simp only [renameLoop]; rw [ih, renameStep_fs_dry]

theorem renameStep_warn_dry (gfd : FPath → String → String) (opts : RenameOpts)
    (s : RenameState) (f : FPath) : (renameStep gfd opts false s f).warnings = s.warnings := by
  simp only [renameStep]
  split <;> simp [bumpCounter] <;> split <;> simp

theorem renameLoop_warn_dry (gfd : FPath → String → String) (opts : RenameOpts) :
    ∀ (files : List FPath) (s : RenameState),
      (renameLoop gfd opts false s files).warnings = s.warnings := by
  intro files
  induction files with
  | nil => intro s; rfl
  | cons f rest ih => intro s; simp only [renameLoop]; rw [ih, renameStep_warn_dry]

theorem renameStep_warn_mono (gfd : FPath → String → String) (opts : RenameOpts)
    (ex : Bool) (s : RenameState) (f : FPath) :
    ∃ t, (renameStep gfd opts ex s f).warnings = s.warnings ++ t := by
  simp only [renameStep]
  split
  · split
    · split
      · exact ⟨[warnMsg f (computedName gfd opts s.counter f)], by simp⟩
      · refine ⟨[], ?_⟩; simp [bumpCounter]; split <;> simp
    · refine ⟨[], ?_⟩; simp [bumpCounter]; split <;> simp
  · refine ⟨[], ?_⟩; simp [bumpCounter]; split <;> simp

theorem renameLoop_warn_mono (gfd : FPath → String → String) (opts : RenameOpts)
    (ex : Bool) : ∀ (files : List FPath) (s : RenameState),
      ∃ t, (renameLoop gfd opts ex s files).warnings = s.warnings ++ t := by
  intro files
  induction files with
  | nil => intro s; exact ⟨[], by simp [renameLoop]⟩
  | cons f rest ih =>
    intro s
    obtain ⟨t1, h1⟩ := renameStep_warn_mono gfd opts ex s f
    obtain ⟨t2, h2⟩ := ih (renameStep gfd opts ex s f)
    exact ⟨t1 ++ t2, by simp only [renameLoop]; rw [h2, h1, List.append_assoc]⟩

theorem renameStep_renames_mem (gfd : FPath → String → String) (opts : RenameOpts)
    (ex : Bool) (s : RenameState) (f : FPath) (x : FPath × FPath)
    (hx : x ∈ s.renames) : x ∈ (renameStep gfd opts ex s f).renames := by
  simp only [renameStep]
  split
  · split
    · split
      · simp [hx]
      · simp [bumpCounter]; split <;> simp [hx]
    · simp [bumpCounter]; split <;> simp [hx]
  · simp [bumpCounter]; split <;> simp [hx]

theorem renameLoop_renames_mem (gfd : FPath → String → String) (opts : RenameOpts)
    (ex : Bool) : ∀ (files : List FPath) (s : RenameState) (x : FPath × FPath),
      x ∈ s.renames → x ∈ (renameLoop gfd opts ex s files).renames := by
  intro files
  induction files with
  | nil => intro s x hx; exact hx
  | cons f rest ih =>
    intro s x hx
    exact ih (renameStep gfd opts ex s f) x (renameStep_renames_mem gfd opts ex s f x hx)

/-- Every plan entry a step appends is the computed path of the processed
file, appended only when it differs from the original. -/
theorem renameStep_renames_cases (gfd : FPath → String → String) (opts : RenameOpts)
    (ex : Bool) (s : RenameState) (f : FPath) (e : FPath × FPath)
    (he : e ∈ (renameStep gfd opts ex s f).renames) :
    e ∈ s.renames ∨
      (e = (f, computedPath gfd opts s.counter f) ∧ computedPath gfd opts s.counter f ≠ f) := by
  simp only [renameStep] at he
  simp only [computedPath_def] at he
  split at he
  · rename_i hne
    split at he
    · split at he
      · simp at he
        rcases he with h | h
        · exact Or.inl h
        · exact Or.inr ⟨by simp [h], hne⟩
      · simp [bumpCounter] at he
        split at he <;> simp at he <;>
          first
          | (rcases he with h | h
             · exact Or.inl h
             · exact Or.inr ⟨by simp [h], hne⟩)
    · simp [bumpCounter] at he
      split at he <;> simp at he <;>
        first
        | (rcases he with h | h
           · exact Or.inl h
           · exact Or.inr ⟨by simp [h], hne⟩)
  · simp [bumpCounter] at he
    split at he <;> exact Or.inl he

theorem bumpCounter_fs (opts : RenameOpts) (s : RenameState) :
    (bumpCounter opts s).fs = s.fs := by
  unfold bumpCounter; split <;> rfl

theorem bumpCounter_renames (opts : RenameOpts) (s : RenameState) :
    (bumpCounter opts s).renames = s.renames := by
  unfold bumpCounter; split <;> rfl

theorem bumpCounter_warnings (opts : RenameOpts) (s : RenameState) :
    (bumpCounter opts s).warnings = s.warnings := by
  unfold bumpCounter; split <;> rfl

theorem bumpCounter_counter_eq (opts : RenameOpts) {s t : RenameState}
    (h : s.counter = t.counter) :
    (bumpCounter opts s).counter = (bumpCounter opts t).counter := by
  unfold bumpCounter; split <;> simp [h]

/-- Characterization of a step on a file whose computed path is unchanged:
no plan entry, no warning, no filesystem action, only the increment. -/
theorem renameStep_nochange (gfd : FPath → String → String) (opts : RenameOpts)
    (ex : Bool) (s : RenameState) (f : FPath)
    (h : computedPath gfd opts s.counter f = f) :
    renameStep gfd opts ex s f = bumpCounter opts s := by
  simp only [renameStep, computedPath_def]
  rw [if_neg (by simp [h])]

/-- Characterization of a dry-run step on a file whose computed path
differs: the plan entry is appended and the counter advanced, nothing
else. -/
theorem renameStep_dry_change (gfd : FPath → String → String) (opts : RenameOpts)
    (s : RenameState) (f : FPath)
    (hne : computedPath gfd opts s.counter f ≠ f) :
    renameStep gfd opts false s f
      = bumpCounter opts
          { s with renames := s.renames ++ [(f, computedPath gfd opts s.counter f)] } := by
  simp only [renameStep, computedPath_def]
  rw [if_pos hne]
  simp

/-- Characterization of an execute step on a conflicting file: the entry is
still appended, a warning is recorded, the filesystem and the counter are
untouched (the continue statement skips the increment). -/
theorem renameStep_conflict (gfd : FPath → String → String) (opts : RenameOpts)
    (s : RenameState) (f : FPath)
    (hne : computedPath gfd opts s.counter f ≠ f)
    (hex : computedPath gfd opts s.counter f ∈ s.fs) :
    renameStep gfd opts true s f
      = { s with renames := s.renames ++ [(f, computedPath gfd opts s.counter f)],
                 warnings := s.warnings ++ [warnMsg f (computedName gfd opts s.counter f)] } := by
  simp only [renameStep, computedPath_def]
  rw [if_pos hne]
  simp only [if_true]
  rw [if_pos ⟨hex, hne⟩]

/-- Characterization of an execute step on a non-conflicting changed file:
the entry is appended, the rename is performed on the filesystem, and the
counter advanced. -/
theorem renameStep_exec_noconf (gfd : FPath → String → String) (opts : RenameOpts)
    (s : RenameState) (f : FPath)
    (hne : computedPath gfd opts s.counter f ≠ f)
    (hnc : computedPath gfd opts s.counter f ∉ s.fs) :
    renameStep gfd opts true s f
      = bumpCounter opts
          { s with fs := s.fs.erase f ++ [computedPath gfd opts s.counter f],
                   renames := s.renames ++ [(f, computedPath gfd opts s.counter f)] } := by
  simp only [renameStep, computedPath_def]
  rw [if_pos hne]
  simp only [if_true]
  rw [if_neg (by simp [hnc])]

theorem bumpCounter_mk (opts : RenameOpts) (a : List FPath)
    (b : List (FPath × FPath)) (c : Int) (d : List String) :
    bumpCounter opts { fs := a, renames := b, counter := c, warnings := d }
      = { fs := a, renames := b, counter := if opts.numbering then c + 1 else c,
          warnings := d } := by
  unfold bumpCounter
  split <;> rename_i h <;> simp [h]

/-- In dry-run mode the computed plan does not depend on which paths exist
on disk: the existence check runs only in execute mode. -/
theorem renameLoop_dry_fs_indep (gfd : FPath → String → String) (opts : RenameOpts) :
    ∀ (files : List FPath) (r : List (FPath × FPath)) (c : Int) (w : List String)
      (fsA fsB : List FPath),
      (renameLoop gfd opts false { fs := fsA, renames := r, counter := c, warnings := w } files).renames
        = (renameLoop gfd opts false { fs := fsB, renames := r, counter := c, warnings := w } files).renames := by
  intro files
  induction files with
  | nil => intro r c w fsA fsB; rfl
  | cons f rest ih =>
    intro r c w fsA fsB
    simp only [renameLoop]
    by_cases hne : computedPath gfd opts c f ≠ f
    · rw [renameStep_dry_change gfd opts { fs := fsA, renames := r, counter := c, warnings := w } f hne,
        renameStep_dry_change gfd opts { fs := fsB, renames := r, counter := c, warnings := w } f hne]
      simp only [bumpCounter_mk]
      exact ih _ _ _ _ _
    · push_neg at hne
      rw [renameStep_nochange gfd opts false { fs := fsA, renames := r, counter := c, warnings := w } f hne,
        renameStep_nochange gfd opts false { fs := fsB, renames := r, counter := c, warnings := w } f hne]
      simp only [bumpCounter_mk]
      exact ih _ _ _ _ _

/-- When the execute run produces no warnings, the dry run and the execute
run build the same plan, step by synchronized step. -/
theorem renameLoop_dry_exec_sync (gfd : FPath → String → String) (opts : RenameOpts) :
    ∀ (files : List FPath) (sD sE : RenameState),
      sD.counter = sE.counter → sD.renames = sE.renames →
      (renameLoop gfd opts true sE files).warnings = sE.warnings →
      (renameLoop gfd opts false sD files).renames
        = (renameLoop gfd opts true sE files).renames := by
  intro files
  induction files with
  | nil =>
    intro sD sE hc hr hw
    simpa [renameLoop] using hr
  | cons f rest ih =>
    intro sD sE hc hr hw
    simp only [renameLoop] at hw ⊢
    by_cases hne : computedPath gfd opts sE.counter f ≠ f
    · by_cases hcf : computedPath gfd opts sE.counter f ∈ sE.fs
      · exfalso
        rw [renameStep_conflict gfd opts sE f hne hcf] at hw
        obtain ⟨t, ht⟩ := renameLoop_warn_mono gfd opts true rest _
        rw [ht] at hw
        have hlen := congrArg List.length hw
        simp only [List.length_append, List.length_cons, List.length_nil] at hlen
        omega
      · rw [renameStep_exec_noconf gfd opts sE f hne hcf] at hw ⊢
        have hneD : computedPath gfd opts sD.counter f ≠ f := by rw [hc]; exact hne
        rw [renameStep_dry_change gfd opts sD f hneD]
        apply ih
        · apply bumpCounter_counter_eq; simp [hc]
        · rw [bumpCounter_renames, bumpCounter_renames]
          simp [hr, hc]
        · rw [bumpCounter_warnings]
          exact hw
    · push_neg at hne
      have hneD : computedPath gfd opts sD.counter f = f := by rw [hc]; exact hne
      rw [renameStep_nochange gfd opts true sE f hne] at hw ⊢
      rw [renameStep_nochange gfd opts false sD f hneD]
      apply ih
      · exact bumpCounter_counter_eq opts hc
      · rw [bumpCounter_renames, bumpCounter_renames]; exact hr
      · rw [bumpCounter_warnings]
        exact hw

/-- The digits the accumulator-based decimal printer produces: something
non-empty made of digit characters, in front of the accumulator. -/
theorem natReprGo_spec : ∀ (fuel n : Nat) (acc : List Char),
    ∃ pre : List Char, natReprGo (fuel + 1) n acc = pre ++ acc ∧ pre ≠ [] ∧
      ∀ c ∈ pre, ∃ d, d < 10 ∧ c = Nat.digitChar d := by
  intro fuel
  induction fuel with
  | zero =>
    intro n acc
    by_cases h : n < 10
    · refine ⟨[Nat.digitChar n], by simp [natReprGo, h], by simp, ?_⟩
      intro c hc
      simp at hc
      exact ⟨n, h, hc⟩
    · refine ⟨[Nat.digitChar (n % 10)], by simp [natReprGo, h], by simp, ?_⟩
      intro c hc
      simp at hc
      exact ⟨n % 10, Nat.mod_lt _ (by norm_num), hc⟩
  | succ f ih =>
    intro n acc
    by_cases h : n < 10
    · refine ⟨[Nat.digitChar n], by simp [natReprGo, h], by simp, ?_⟩
      intro c hc
      simp at hc
      exact ⟨n, h, hc⟩
    · obtain ⟨pre, hp, hpre, hd⟩ := ih (n / 10) (Nat.digitChar (n % 10) :: acc)
      refine ⟨pre ++ [Nat.digitChar (n % 10)], ?_, by simp, ?_⟩
      · rw [natReprGo]
        simp only [if_neg h]
        rw [hp]
        simp
      · intro c hc
        rw [List.mem_append] at hc
        rcases hc with hc | hc
        · exact hd c hc
        · simp at hc
          exact ⟨n % 10, Nat.mod_lt _ (by norm_num), hc⟩

theorem natRepr_digits (n : Nat) :
    (natRepr n).data ≠ [] ∧
      ∀ c ∈ (natRepr n).data, ∃ d, d < 10 ∧ c = Nat.digitChar d := by
  obtain ⟨pre, hp, hpre, hd⟩ := natReprGo_spec n n []
  unfold natRepr
  rw [hp]
  simpa using ⟨hpre, hd⟩

theorem digitChar_not_sign (d : Nat) (hd : d < 10) :
    Nat.digitChar d ≠ '-' ∧ Nat.digitChar d ≠ '+' := by
  interval_cases d <;> exact ⟨by decide, by decide⟩

/-- On a non-negative value the zero fill is plain left padding: the
decimal representation has no sign character for the fill to skip. -/
theorem pyZfill_nonneg (n : Int) (hn : 0 ≤ n) (w : Int) :
    pyZfill (pyStrInt n) w = specLeftPad (pyStrInt n) w := by
  have hns : pyStrInt n = natRepr n.natAbs := by
    unfold pyStrInt
    rw [if_neg (by omega)]
  rw [hns]
  by_cases hw : w ≤ ((natRepr n.natAbs).length : Int)
  · unfold pyZfill specLeftPad
    rw [if_pos hw, if_pos hw]
  · obtain ⟨hne, hd⟩ := natRepr_digits n.natAbs
    cases hdata : (natRepr n.natAbs).data with
    | nil => exact absurd hdata hne
    | cons c rest =>
      have hc : ∃ d, d < 10 ∧ c = Nat.digitChar d :=
        hd c (by rw [hdata]; exact List.mem_cons_self c rest)
      obtain ⟨d, hd10, hcd⟩ := hc
      obtain ⟨h1, h2⟩ := digitChar_not_sign d hd10
      subst hcd
      simp only [pyZfill, specLeftPad, if_neg hw, hdata]
      simp [h1, h2]

/-- A string already at least the requested width is returned unchanged by
the zero fill: no truncation ever happens. -/
theorem pyZfill_wide (s : String) (w : Int) (h : w ≤ (s.length : Int)) :
    pyZfill s w = s := by
  unfold pyZfill
  rw [if_pos h]

/-- Plan entries always stay in the directory of their original and always
differ from their original, through the whole loop. -/
theorem renameLoop_renames_prop (gfd : FPath → String → String) (opts : RenameOpts)
    (ex : Bool) : ∀ (files : List FPath) (s : RenameState),
      (∀ e ∈ s.renames, parentDir e.2 = parentDir e.1 ∧ e.2 ≠ e.1) →
      ∀ e ∈ (renameLoop gfd opts ex s files).renames,
        parentDir e.2 = parentDir e.1 ∧ e.2 ≠ e.1 := by
  intro files
  induction files with
  | nil => intro s hs e he; exact hs e he
  | cons f rest ih =>
    intro s hs e he
    refine ih (renameStep gfd opts ex s f) ?_ e he
    intro x hx
    rcases renameStep_renames_cases gfd opts ex s f x hx with h | ⟨hx2, hneq⟩
    · exact hs x h
    · subst hx2
      exact ⟨parentDir_computedPath gfd opts s.counter f, hneq⟩

/-- C1 (amended): when numbering is enabled the counter is advanced once
per iterated file except a file whose rename is skipped by the execute-mode
conflict check, whose continue statement also skips the increment; hence
the final counter equals number_start plus the number of iterated files
minus the number of conflict warnings. -/
theorem C1_counter_advance (gfd : FPath → String → String) (opts : RenameOpts)
    (ex : Bool) (fs0 : List FPath) (gr : List FSEntry)
    (hn : opts.numbering = true) :
    (rename_files gfd opts ex fs0 gr).counter
      = opts.number_start + ((collect_files gr).length : Int)
        - ((rename_files gfd opts ex fs0 gr).warnings.length : Int) := by
  have h := renameLoop_counter_warn gfd opts ex hn (collect_files gr)
    { fs := fs0, renames := [], counter := opts.number_start, warnings := [] }
  unfold rename_files
  simp only [List.length_nil, Nat.cast_zero] at h
  omega

/-- C1 counterexample: with numbering from 1 and one collected file a.txt
whose destination a_001.txt already exists, the execute run ends with
counter 1, not number_start plus the number of files, because the conflict
skip jumps past the increment. -/
theorem C1_counterexample :
    (rename_files gfd0 opts1 true fsA grA).counter
      ≠ opts1.number_start + ((collect_files grA).length : Int) := by decide

theorem C1_witness :
    opts1.numbering = true ∧
    (rename_files gfd0 opts1 true fsA grA).counter
      = opts1.number_start + ((collect_files grA).length : Int)
        - ((rename_files gfd0 opts1 true fsA grA).warnings.length : Int) :=
  ⟨by decide, C1_counter_advance gfd0 opts1 true fsA grA (by decide)⟩

/-- C2: generate_new_name applies to the stem, in this fixed order, the
global substitution, the prefix, the suffix, the numbering, and the date,
and appends the unchanged original extension at the end; the second
conjunct exhibits the global (not first-match-only) substitution on a
literal pattern with two occurrences. -/
theorem C2_transform_order :
    (∀ (gfd : FPath → String → String) (file_path : FPath)
      (prefixStr suffixStr : String) (search : Option RegexMatcher)
      (replaceStr : Option String) (number : Option Int) (number_mode : String)
      (number_padding : Int) (date_type : Option String) (date_position : String),
      generate_new_name gfd file_path prefixStr suffixStr search replaceStr
          number number_mode number_padding date_type date_position
        = specPipeline gfd file_path prefixStr suffixStr search replaceStr
            number number_mode number_padding date_type date_position
            (pyStem (pathName file_path))
          ++ pySuffix (pathName file_path))
    ∧ pyReSubStr (literalMatcher "a".data) "b" "axa" = "bxb" :=
  ⟨fun gfd file_path prefixStr suffixStr search replaceStr number number_mode
      number_padding date_type date_position =>
    generate_eq_pipeline gfd file_path prefixStr suffixStr search replaceStr
      number number_mode number_padding date_type date_position,
   by decide⟩

/-- C3 (amended): on the parsing model of line 162, every entry of the
returned plan differs from its original path, unconditionally; and every
entry keeps the parent directory of its original path whenever the
generated names are plain relative components (no separator, non-empty,
not a single dot), which holds for every separator-free configuration. A
separator in the configuration makes the real program change directories,
so the unconditional parent invariant is false. -/
theorem C3_plan_invariants (gfd : FPath → String → String) (opts : RenameOpts)
    (ex : Bool) (fs0 : List FPath) (gr : List FSEntry) :
    (∀ e ∈ (rename_files_div gfd opts ex fs0 gr).renames, e.2 ≠ e.1) ∧
    ((∀ (c : Int) (f : FPath), f ∈ collect_files gr →
        plainComponent (computedName gfd opts c f)) →
      ∀ e ∈ (rename_files_div gfd opts ex fs0 gr).renames,
        parentDir e.2 = parentDir e.1) := by
  constructor
  · unfold rename_files_div
    refine renameLoopDiv_renames_prop gfd opts ex (fun e => e.2 ≠ e.1)
      (collect_files gr) _ ?_ (by simp)
    intro c f hf hne
    exact hne
  · intro hplain
    unfold rename_files_div
    refine renameLoopDiv_renames_prop gfd opts ex
      (fun e => parentDir e.2 = parentDir e.1) (collect_files gr) _ ?_ (by simp)
    intro c f hf hne
    show parentDir (computedPathDiv gfd opts c f) = parentDir f
    unfold computedPathDiv
    rw [joinPath_plain _ _ (hplain c f hf)]
    unfold parentDir
    exact List.dropLast_concat

/-- C3 counterexample: the suffix option with value slash b on the single
collected file d/a.txt makes the program plan d/a.txt to d/a/b.txt, whose
parent directory d/a differs from the original parent d, because line 162
parses the separator inside the generated name. -/
theorem C3_counterexample :
    (rename_files_div gfd0 optsSlash false fsD grD).renames
      = [(["d", "a.txt"], ["d", "a", "b.txt"])] ∧
    parentDir (["d", "a", "b.txt"] : FPath) ≠ parentDir (["d", "a.txt"] : FPath) :=
  ⟨by decide, by decide⟩

theorem C3_witness :
    (["a.txt"], ["new_a.txt"]) ∈ (rename_files_div gfd0 optsPre false fsAB0 grAB).renames ∧
    (["new_a.txt"] : FPath) ≠ ["a.txt"] ∧
    parentDir (["new_a.txt"] : FPath) = parentDir (["a.txt"] : FPath) := by
  have hplain : ∀ (c : Int) (f : FPath), f ∈ collect_files grAB →
      plainComponent (computedName gfd0 optsPre c f) := by
    intro c f hf
    have hcol : collect_files grAB = [["a.txt"], ["b.txt"]] := by decide
    rw [hcol] at hf
    simp at hf
    rcases hf with rfl | rfl
    · have h0 : computedName gfd0 optsPre c ["a.txt"]
          = computedName gfd0 optsPre 0 ["a.txt"] := rfl
      rw [h0]
      unfold plainComponent
      decide
    · have h0 : computedName gfd0 optsPre c ["b.txt"]
          = computedName gfd0 optsPre 0 ["b.txt"] := rfl
      rw [h0]
      unfold plainComponent
      decide
  refine ⟨by decide, ?_, ?_⟩
  · exact (C3_plan_invariants gfd0 optsPre false fsAB0 grAB).1
      (["a.txt"], ["new_a.txt"]) (by decide)
  · exact (C3_plan_invariants gfd0 optsPre false fsAB0 grAB).2 hplain
      (["a.txt"], ["new_a.txt"]) (by decide)

/-- C4: in execute mode a plan entry whose destination exists at processing
time is skipped: the filesystem is untouched for it (the file keeps its
name), the warning is recorded, and the loop definitionally continues with
the remaining files. -/
theorem C4_conflict_skip (gfd : FPath → String → String) (opts : RenameOpts)
    (s : RenameState) (f : FPath) (rest : List FPath)
    (hne : computedPath gfd opts s.counter f ≠ f)
    (hex : computedPath gfd opts s.counter f ∈ s.fs) :
    (renameStep gfd opts true s f).fs = s.fs ∧
    (renameStep gfd opts true s f).warnings
      = s.warnings ++ [warnMsg f (computedName gfd opts s.counter f)] ∧
    renameLoop gfd opts true s (f :: rest)
      = renameLoop gfd opts true (renameStep gfd opts true s f) rest := by
  refine ⟨?_, ?_, rfl⟩ <;> rw [renameStep_conflict gfd opts s f hne hex]

theorem C4_witness :
    stXY1.fs = [["x2.txt"], ["y.txt"]] ∧
    (renameStep gfd0 optsXY true stXY1 ["x2.txt"]).fs = stXY1.fs ∧
    (renameStep gfd0 optsXY true stXY1 ["x2.txt"]).warnings
      = stXY1.warnings
        ++ [warnMsg ["x2.txt"] (computedName gfd0 optsXY stXY1.counter ["x2.txt"])] ∧
    renameLoop gfd0 optsXY true stXY1 (["x2.txt"] :: [])
      = renameLoop gfd0 optsXY true (renameStep gfd0 optsXY true stXY1 ["x2.txt"]) [] :=
  ⟨by decide, C4_conflict_skip gfd0 optsXY stXY1 ["x2.txt"] [] (by decide) (by decide)⟩

/-- C5 (amended): a dry run never mutates the filesystem, and it returns
the same plan as an execute run from the same initial state whenever the
execute run records no conflict warning; a conflict desynchronizes the
counters, so the unrestricted identity of the two plans is false. -/
theorem C5_dry_vs_execute (gfd : FPath → String → String) (opts : RenameOpts)
    (fs0 : List FPath) (gr : List FSEntry) :
    (rename_files gfd opts false fs0 gr).fs = fs0 ∧
    ((rename_files gfd opts true fs0 gr).warnings = [] →
      (rename_files gfd opts false fs0 gr).renames
        = (rename_files gfd opts true fs0 gr).renames) := by
  constructor
  · unfold rename_files
    exact renameLoop_fs_dry gfd opts (collect_files gr) _
  · intro hw
    unfold rename_files at hw ⊢
    exact renameLoop_dry_exec_sync gfd opts (collect_files gr) _ _ rfl rfl hw

/-- C5 counterexample: with numbering enabled and a conflict on the first
file, the execute run reuses the stalled counter for the second file, so
the dry-run plan and the execute plan differ. -/
theorem C5_counterexample :
    (rename_files gfd0 opts1 false fsAB grAB).renames
      ≠ (rename_files gfd0 opts1 true fsAB grAB).renames := by decide

theorem C5_witness :
    (rename_files gfd0 opts1 true fsAB0 grAB).warnings = [] ∧
    (rename_files gfd0 opts1 false fsAB0 grAB).renames
      = (rename_files gfd0 opts1 true fsAB0 grAB).renames :=
  ⟨by decide, (C5_dry_vs_execute gfd0 opts1 fsAB0 grAB).2 (by decide)⟩

/-- C6: when the configured rule leaves the stem unchanged the computed
name is exactly the original filename and the step adds no plan entry. -/
theorem C6_noop_excluded (gfd : FPath → String → String) (opts : RenameOpts)
    (ex : Bool) (s : RenameState) (f : FPath) (hf : f ≠ [])
    (h : specPipeline gfd f opts.prefixStr opts.suffixStr opts.search opts.replaceStr
          (optNumber opts s.counter) opts.number_mode opts.number_padding
          opts.date_type opts.date_position (pyStem (pathName f))
        = pyStem (pathName f)) :
    computedName gfd opts s.counter f = pathName f ∧
    (renameStep gfd opts ex s f).renames = s.renames := by
  have hname : computedName gfd opts s.counter f = pathName f := by
    unfold computedName
    rw [generate_eq_pipeline, h, pyStem_append_pySuffix]
  refine ⟨hname, ?_⟩
  have hpath : computedPath gfd opts s.counter f = f := by
    unfold computedPath
    rw [hname]
    exact parentDir_append_pathName hf
  rw [renameStep_nochange gfd opts ex s f hpath, bumpCounter_renames]

theorem C6_witness :
    computedName gfd0 opts0 1 ["a.txt"] = pathName ["a.txt"] ∧
    (renameStep gfd0 opts0 false
        { fs := fsAB0, renames := [], counter := 1, warnings := [] } ["a.txt"]).renames
      = [] :=
  C6_noop_excluded gfd0 opts0 false
    { fs := fsAB0, renames := [], counter := 1, warnings := [] } ["a.txt"]
    (by decide) (by decide)

/-- C7 (amended): for a non-negative counter the inserted number is the
decimal representation left-padded with zeros to the width, and a
representation already at least the width long is kept in full, never
truncated; for a negative counter the zeros go after the minus sign, so
plain left padding is not what the code produces. -/
theorem C7_padding (n : Int) (w : Int) :
    (0 ≤ n → pyZfill (pyStrInt n) w = specLeftPad (pyStrInt n) w) ∧
    (w ≤ ((pyStrInt n).length : Int) → pyZfill (pyStrInt n) w = pyStrInt n) :=
  ⟨fun hn => pyZfill_nonneg n hn w, fun hw => pyZfill_wide (pyStrInt n) w hw⟩

/-- C7 counterexample: the counter value minus one with padding three is
rendered -01 by the code, not the plain left padding 0-1. -/
theorem C7_counterexample :
    pyZfill (pyStrInt (-1)) 3 ≠ specLeftPad (pyStrInt (-1)) 3 := by decide

theorem C7_witness :
    (pyZfill (pyStrInt 7) 3 = specLeftPad (pyStrInt 7) 3) ∧
    (pyZfill (pyStrInt 12345) 3 = pyStrInt 12345) :=
  ⟨(C7_padding 7 3).1 (by decide), (C7_padding 12345 3).2 (by decide)⟩

/-- C8 (amended): collect_files returns exactly the is_file entries of the
walk, sorted by the Python Path order, which is lexicographic on the list
of path components; this order is deterministic but differs from the
lexicographic order on the full path string. -/
theorem C8_collect_files (gr : List FSEntry) :
    List.Perm (collect_files gr) ((gr.filter (fun e => e.is_file)).map (fun e => e.path)) ∧
    List.Sorted pathLe (collect_files gr) := by
  constructor
  · unfold collect_files pySorted
    exact List.perm_insertionSort pathLe _
  · unfold collect_files pySorted
    letI : IsTotal FPath pathLe := ⟨pathLe_total⟩
    letI : IsTrans FPath pathLe := ⟨pathLe_trans⟩
    exact List.sorted_insertionSort pathLe _

/-- C8 counterexample: on the entries a.txt and a/b the returned order puts
a/b first, although the full path string a.txt sorts before a/b, so the
output is not sorted lexicographically by full path. -/
theorem C8_counterexample :
    collect_files grDepth = [["a", "b"], ["a.txt"]] ∧
    sortedByFullPath (collect_files grDepth) = false :=
  ⟨by decide, by decide⟩

/-- C9: a dry run records no warning and computes a plan independent of
which paths exist on disk (the existence check runs only in execute mode);
on two files both mapped to y.txt the dry-run plan contains both entries
with the identical destination. -/
theorem C9_dry_no_conflict_check (gfd : FPath → String → String) (opts : RenameOpts)
    (fsP fsQ : List FPath) (gr : List FSEntry) :
    (rename_files gfd opts false fsP gr).warnings = [] ∧
    (rename_files gfd opts false fsP gr).renames
      = (rename_files gfd opts false fsQ gr).renames ∧
    (rename_files gfd0 optsXY false fsXY grXY).renames
      = [(["x1.txt"], ["y.txt"]), (["x2.txt"], ["y.txt"])] := by
  refine ⟨?_, ?_, by decide⟩
  · unfold rename_files
    exact renameLoop_warn_dry gfd opts (collect_files gr) _
  · unfold rename_files
    exact renameLoop_dry_fs_indep gfd opts (collect_files gr) [] opts.number_start [] fsP fsQ

/-- C10: a conflict-skipped file is nevertheless in the returned plan (the
entry is appended before the conflict check), it is not renamed on disk,
and the RENAMED banner and total count of main cover it. -/
theorem C10_skipped_still_listed (gfd : FPath → String → String) (opts : RenameOpts)
    (s : RenameState) (f : FPath) (rest : List FPath)
    (hne : computedPath gfd opts s.counter f ≠ f)
    (hex : computedPath gfd opts s.counter f ∈ s.fs) :
    (renameStep gfd opts true s f).fs = s.fs ∧
    (f, computedPath gfd opts s.counter f)
      ∈ (renameLoop gfd opts true (renameStep gfd opts true s f) rest).renames ∧
    mainMode true = "RENAMED" ∧
    mainTotal (renameStep gfd opts true s f).renames = mainTotal s.renames + 1 := by
  have hstep := renameStep_conflict gfd opts s f hne hex
  refine ⟨by rw [hstep], ?_, rfl, by rw [hstep]; simp [mainTotal]⟩
  apply renameLoop_renames_mem
  rw [hstep]
  simp

theorem C10_witness :
    (renameStep gfd0 opts1 true stA ["a.txt"]).fs = stA.fs ∧
    (["a.txt"], computedPath gfd0 opts1 stA.counter ["a.txt"])
      ∈ (renameLoop gfd0 opts1 true (renameStep gfd0 opts1 true stA ["a.txt"]) []).renames ∧
    mainMode true = "RENAMED" ∧
    mainTotal (renameStep gfd0 opts1 true stA ["a.txt"]).renames = mainTotal stA.renames + 1 :=
  C10_skipped_still_listed gfd0 opts1 stA ["a.txt"] [] (by decide) (by decide)
